import Mathlib

/-!
Verification of the cros_gralloc driver manager
(`src/qt-everywhere-src-5.10.1/qtwebengine/src/3rdparty/chromium/third_party/minigbm/src/cros_gralloc/cros_gralloc_driver.cc`).

The driver manages reference-counted graphics buffers across two tables:
`buffers_` (the Buffer Table, keyed by the backend Allocation Identity) and
`handles_` (the Handle Registry, keyed by handle pointer identity).  The
Device Backend (`drv_bo_create`, `drv_bo_import`, `drmPrimeFDToHandle`, ...)
is external; its responses are passed to each operation as explicit oracle
values.  Machine integers are modelled as `Nat` with explicit `% 2 ^ 32`
where a narrowing cast occurs in the source.
-/

namespace CrosGralloc

/-- The status codes returned by the driver (`CROS_GRALLOC_ERROR_*`). -/
inductive Status where
  | NONE
  | BAD_HANDLE
  | NO_RESOURCES
  | UNSUPPORTED
deriving DecidableEq, Repr

/-- Modelled from the spec: the magic/version tag a handle carries for
validity checking (`cros_gralloc_magic`; the header defining it is not in
src/).  Its concrete value is irrelevant to the driver logic. -/
def cros_gralloc_magic : Nat := 0xABCDDCBA

/-- Modelled from the spec: the fields of `cros_gralloc_handle` that the
driver reads (the header is not in src/): per-plane descriptor/stride/
offset/size arrays, the packed 32-bit format-modifier words, geometry and
format metadata, and the magic tag.  Arrays are total functions from the
plane (or word) index. -/
structure Handle where
  magic : Nat
  fds : Nat → Nat
  strides : Nat → Nat
  offsets : Nat → Nat
  sizes : Nat → Nat
  format_modifiers : Nat → Nat
  width : Nat
  height : Nat
  format : Nat
  pixel_stride : Nat

/-- Modelled from the spec: `cros_gralloc_buffer` state as the driver uses
it (the class source is not in src/): the Allocation Identity, the owned
backend allocation, optional exported-handle metadata, and the reference
count.  Per the spec a Buffer is constructed with reference count 1. -/
structure Buffer where
  id_ : Nat
  bo_ : Nat
  hnd_ : Option Nat
  refcount_ : Nat
deriving DecidableEq, Repr

/-- The driver state: the Buffer Table `buffers_` (id to Buffer), the
Handle Registry `handles_` (handle address to (buffer id, per-handle
count)), and the set of live backend allocations (tracking
`drv_bo_create` / `drv_bo_import` / `drv_bo_destroy`).  Registry entries
name the shared Buffer by its Allocation Identity; the Buffer Table is the
heap holding the Buffer objects. -/
structure DriverState where
  buffers_ : List (Nat × Buffer)
  handles_ : List (Nat × Nat × Nat)
  liveBos : List Nat
deriving DecidableEq, Repr

/-- The empty state of a freshly initialised driver. -/
def DriverState.empty : DriverState := ⟨[], [], []⟩

/-- Association lookup: the value stored at key `k` (an
`unordered_map::count`/`operator[]` read). -/
def lookupA {α : Type} (l : List (Nat × α)) (k : Nat) : Option α :=
  match l with
  | [] => none
  | p :: rest => if p.1 = k then some p.2 else lookupA rest k

/-- `unordered_map::emplace`: inserts `(k, v)` when `k` is absent, and is a
no-op when `k` is already present. -/
def emplaceA {α : Type} (l : List (Nat × α)) (k : Nat) (v : α) : List (Nat × α) :=
  match lookupA l k with
  | some _ => l
  | none => l ++ [(k, v)]

/-- In-place update of the value stored at key `k`. -/
def updA {α : Type} (l : List (Nat × α)) (k : Nat) (f : α → α) : List (Nat × α) :=
  l.map (fun p => if p.1 = k then (p.1, f p.2) else p)

/-- `unordered_map::erase` by key. -/
def eraseA {α : Type} (l : List (Nat × α)) (k : Nat) : List (Nat × α) :=
  l.filter (fun p => decide (p.1 ≠ k))

/-- Modelled from the spec: `cros_gralloc_convert_handle` (its source is
not in src/) validates the magic tag and yields the typed handle, failing
on a mismatch. -/
def cros_gralloc_convert_handle (h : Handle) : Option Handle :=
  if h.magic = cros_gralloc_magic then some h else none

/-- Lines 127-128: the high 32-bit word of a plane's format modifier,
`static_cast<uint32_t>(mod >> 32)`. -/
def packModHi (mod : Nat) : Nat := (mod >>> 32) % 2 ^ 32

/-- Line 128: the low 32-bit word, `static_cast<uint32_t>(mod)`. -/
def packModLo (mod : Nat) : Nat := mod % 2 ^ 32

/-- The `format_modifiers` array `allocate` writes (lines 126-128): word
`2 * plane` holds the high half and word `2 * plane + 1` the low half of
that plane's 64-bit modifier. -/
def allocFormatModifiers (mods : Nat → Nat) : Nat → Nat :=
  fun i => if i % 2 = 0 then packModHi (mods (i / 2)) else packModLo (mods (i / 2))

/-- The unpacking `retain` performs on import (lines 186-190):
`static_cast<uint64_t>(fm[2 * plane]) << 32` or-ed with `fm[2 * plane + 1]`. -/
def retainUnpackModifier (fm : Nat → Nat) (plane : Nat) : Nat :=
  (fm (2 * plane) <<< 32) ||| fm (2 * plane + 1)

/-- The backend's response to `allocate`: either `drv_bo_create` fails, or
it yields a buffer object with its `drv_num_buffers_per_bo`, plane count,
first-plane handle (the Allocation Identity) and per-plane format
modifiers. -/
inductive AllocOutcome where
  | createFail
  | created (boId numBuffers numPlanes id : Nat) (mods : Nat → Nat)

/-- `cros_gralloc_driver::allocate` (lines 85-147).  `hndAddr` is the
address `new cros_gralloc_handle()` returns.  On success the new Buffer
(refcount 1) is emplaced in the Buffer Table and a Registry entry with
count 1 is emplaced for the new handle. -/
def allocate (s : DriverState) (o : AllocOutcome) (hndAddr : Nat) :
    Status × Option Handle × DriverState :=
  match o with
  | .createFail => (.NO_RESOURCES, none, s)
  | .created boId numBuffers _numPlanes id mods =>
    let s1 : DriverState := { s with liveBos := boId :: s.liveBos }
    if numBuffers ≠ 1 then
      (.NO_RESOURCES, none, { s1 with liveBos := s1.liveBos.erase boId })
    else
      let hnd : Handle :=
        { magic := cros_gralloc_magic
          fds := fun p => p
          strides := fun _ => 0
          offsets := fun _ => 0
          sizes := fun _ => 0
          format_modifiers := allocFormatModifiers mods
          width := 0
          height := 0
          format := 0
          pixel_stride := 0 }
      let buffer : Buffer := { id_ := id, bo_ := boId, hnd_ := some hndAddr, refcount_ := 1 }
      (.NONE, some hnd,
        { s1 with
          buffers_ := emplaceA s1.buffers_ id buffer
          handles_ := emplaceA s1.handles_ hndAddr (id, 1) })

/-- The backend's response to the slow path of `retain`: either
`drmPrimeFDToHandle` fails, or it resolves the primary descriptor to an
Allocation Identity `id`; `imp` is the `drv_bo_import` result consulted
only when `id` has no Buffer Table entry (`none` means the import failed;
the identity of the imported bo is `id`'s allocation, so its first-plane
handle is again `id`). -/
inductive RetainOutcome where
  | primeFail
  | prime (id : Nat) (imp : Option Nat)

/-- `cros_gralloc_driver::retain` (lines 149-204).  `a` is the pointer
identity of `handle` and `h` its contents.  Fast path: a registered handle
gets both its Registry count and its Buffer's refcount incremented.  Slow
path: resolve the Allocation Identity; share the existing Buffer when the
identity is known, otherwise import a fresh Buffer with refcount 1. -/
def retain (s : DriverState) (a : Nat) (h : Handle) (o : RetainOutcome) :
    Status × DriverState :=
  match cros_gralloc_convert_handle h with
  | none => (.BAD_HANDLE, s)
  | some _ =>
    match lookupA s.handles_ a with
    | some (id, _) =>
      (.NONE,
        { s with
          handles_ := updA s.handles_ a (fun p => (p.1, p.2 + 1))
          buffers_ := updA s.buffers_ id
            (fun b => { b with refcount_ := b.refcount_ + 1 }) })
    | none =>
      match o with
      | .primeFail => (.BAD_HANDLE, s)
      | .prime id imp =>
        match lookupA s.buffers_ id with
        | some _ =>
          (.NONE,
            { s with
              buffers_ := updA s.buffers_ id
                (fun b => { b with refcount_ := b.refcount_ + 1 })
              handles_ := emplaceA s.handles_ a (id, 1) })
        | none =>
          match imp with
          | none => (.NO_RESOURCES, s)
          | some boId =>
            let buffer : Buffer := { id_ := id, bo_ := boId, hnd_ := none, refcount_ := 1 }
            (.NONE,
              { s with
                liveBos := boId :: s.liveBos
                buffers_ := emplaceA s.buffers_ id buffer
                handles_ := emplaceA s.handles_ a (id, 1) })

/-- `cros_gralloc_driver::release` (lines 206-231).  Decrements the
Registry count, erasing the entry at 0; decrements the Buffer's refcount,
and at 0 erases the Buffer Table entry at `buffer->get_id()` and destroys
the owned backend allocation.  (In every state the driver can reach, the
Registry entry's Allocation Identity has a Buffer Table entry; the `none`
branch below is unreachable and mirrors only that the Registry is updated
first.) -/
def release (s : DriverState) (a : Nat) (h : Handle) : Status × DriverState :=
  match cros_gralloc_convert_handle h with
  | none => (.BAD_HANDLE, s)
  | some _ =>
    match lookupA s.handles_ a with
    | none => (.BAD_HANDLE, s)
    | some (id, cnt) =>
      let handles1 :=
        if cnt - 1 = 0 then eraseA s.handles_ a
        else updA s.handles_ a (fun p => (p.1, p.2 - 1))
      match lookupA s.buffers_ id with
      | none => (.NONE, { s with handles_ := handles1 })
      | some b =>
        if b.refcount_ - 1 = 0 then
          (.NONE,
            { s with
              handles_ := handles1
              buffers_ := eraseA s.buffers_ b.id_
              liveBos := s.liveBos.erase b.bo_ })
        else
          (.NONE,
            { s with
              handles_ := handles1
              buffers_ := updA s.buffers_ id
                (fun c => { c with refcount_ := c.refcount_ - 1 }) })

/-- `cros_gralloc_driver::lock` (lines 233-256).  The handle is validated
and resolved before the fence check; `bufferLock` stands for the delegated
`buffer->lock(flags, addr)` result.  Lock state is per-Buffer and does not
touch the tables, so only the status is modelled. -/
def lock (s : DriverState) (a : Nat) (h : Handle) (acquire_fence : Int)
    (bufferLock : Status) : Status :=
  match cros_gralloc_convert_handle h with
  | none => .BAD_HANDLE
  | some _ =>
    match lookupA s.handles_ a with
    | none => .BAD_HANDLE
    | some _ =>
      if acquire_fence ≥ 0 then .UNSUPPORTED
      else bufferLock

/-- What probing one render node yields (lines 46-70): `versionName` is
`some name` when `open` and `drmGetVersion` succeed (the name from the DRM
version), `none` when either fails (or `asprintf` fails); `drvOk` says
whether `drv_create` on that node yields a valid backend handle.  A node's
behaviour is a property of the device, the same on both passes. -/
structure ProbeResult where
  versionName : Option String
  drvOk : Bool

/-- Line 43: `min_node = 128`. -/
def min_node : Nat := 128

/-- Line 42: `num_nodes = 63`. -/
def num_nodes : Nat := 63

/-- Line 41: `const char *undesired[2] = \x7b "vgem", nullptr \x7d`. -/
def undesired : List (Option String) := [some "vgem", none]

/-- One iteration of the inner loop body (lines 47-71): the node is taken
when `open`/`drmGetVersion` succeed, its name does not match the active
`undesired` filter (a null filter matches nothing), and `drv_create`
yields a valid handle. -/
def nodePasses (env : Nat → ProbeResult) (filter : Option String) (j : Nat) : Bool :=
  match (env j).versionName with
  | none => false
  | some name =>
    match filter with
    | some u => if name = u then false else (env j).drvOk
    | none => (env j).drvOk

/-- The inner `for (j = min_node; j < max_node; j++)` loop: the first node
from `j` (with `fuel` nodes left) that passes. -/
def probeLoop (env : Nat → ProbeResult) (filter : Option String) :
    Nat → Nat → Option Nat
  | _, 0 => none
  | j, fuel + 1 =>
    if nodePasses env filter j then some j else probeLoop env filter (j + 1) fuel

/-- The outer `for (i = 0; i < ARRAY_SIZE(undesired); i++)` loop. -/
def initLoop (env : Nat → ProbeResult) : List (Option String) → Option Nat
  | [] => none
  | f :: rest =>
    match probeLoop env f min_node num_nodes with
    | some j => some j
    | none => initLoop env rest

/-- `cros_gralloc_driver::init` (lines 29-75): scan the render nodes once
per `undesired` entry, returning `NONE` with the selected node on the
first success, `NO_RESOURCES` when every scan fails. -/
def init (env : Nat → ProbeResult) : Status × Option Nat :=
  match initLoop env undesired with
  | some j => (.NONE, some j)
  | none => (.NO_RESOURCES, none)

/-- Backend contract for `allocate`: the first-plane handle of a newly
created buffer object is an Allocation Identity distinct from every live
allocation's (kernel GEM handles are unique among live objects on one
descriptor; the spec's Allocation Identity is stable for the life of the
allocation and names it uniquely). -/
def allocFresh (s : DriverState) (o : AllocOutcome) : Prop :=
  match o with
  | .createFail => True
  | .created _ _ _ id _ => lookupA s.buffers_ id = none

/-- One successful driver operation.  `allocate` additionally records that
`new` returns a pointer distinct from every registered handle and the
backend freshness contract above. -/
inductive Step : DriverState → DriverState → Prop where
  | stepAllocate (s : DriverState) (o : AllocOutcome) (hndAddr : Nat)
      (h : Handle) (sNext : DriverState) :
      lookupA s.handles_ hndAddr = none →
      allocFresh s o →
      allocate s o hndAddr = (.NONE, some h, sNext) →
      Step s sNext
  | stepRetain (s : DriverState) (a : Nat) (h : Handle) (o : RetainOutcome)
      (sNext : DriverState) :
      retain s a h o = (.NONE, sNext) →
      Step s sNext
  | stepRelease (s : DriverState) (a : Nat) (h : Handle)
      (sNext : DriverState) :
      release s a h = (.NONE, sNext) →
      Step s sNext

/-- The states a driver can be in after any sequence of successful
allocate/retain/release operations from the empty state. -/
inductive Reachable : DriverState → Prop where
  | empty : Reachable DriverState.empty
  | step (s sNext : DriverState) : Reachable s → Step s sNext → Reachable sNext

/-- The sum of the counts of all Handle Registry entries that reference the
Buffer with Allocation Identity `id`. -/
def sumCounts (handles : List (Nat × Nat × Nat)) (id : Nat) : Nat :=
  (handles.map (fun e => if e.2.1 = id then e.2.2 else 0)).sum

/-- The driver invariant: table keys are unique; every Registry entry has
count at least 1 and references a Buffer present in the Buffer Table; every
Buffer Table entry is keyed by its Buffer's Allocation Identity, its
refcount equals the sum of the Registry counts referencing it, and that
refcount is positive. -/
def Invariant (s : DriverState) : Prop :=
  (s.buffers_.map Prod.fst).Nodup ∧
  (s.handles_.map Prod.fst).Nodup ∧
  (∀ e ∈ s.handles_, 1 ≤ e.2.2 ∧ (lookupA s.buffers_ e.2.1).isSome = true) ∧
  (∀ p ∈ s.buffers_,
    p.2.id_ = p.1 ∧ p.2.refcount_ = sumCounts s.handles_ p.1 ∧ 0 < p.2.refcount_)

/-! ### Association-table lemmas -/

theorem lookupA_cons {α : Type} (p : Nat × α) (l : List (Nat × α)) (k : Nat) :
    lookupA (p :: l) k = if p.1 = k then some p.2 else lookupA l k := rfl

theorem updA_cons {α : Type} (p : Nat × α) (l : List (Nat × α)) (k : Nat)
    (f : α → α) :
    updA (p :: l) k f =
      (if p.1 = k then (p.1, f p.2) else p) :: updA l k f := by
  by_cases hp : p.1 = k <;> simp [updA, hp]

theorem eraseA_cons {α : Type} (p : Nat × α) (l : List (Nat × α)) (k : Nat) :
    eraseA (p :: l) k = if p.1 = k then eraseA l k else p :: eraseA l k := by
  by_cases hp : p.1 = k <;> simp [eraseA, List.filter_cons, hp]

theorem lookupA_eq_none_iff {α : Type} {l : List (Nat × α)} {k : Nat} :
    lookupA l k = none ↔ ∀ e ∈ l, e.1 ≠ k := by
  induction l with
  | nil => simp [lookupA]
  | cons p rest ih =>
    by_cases hp : p.1 = k
    · simp [lookupA_cons, hp]
    · simp [lookupA_cons, hp, ih]

theorem lookupA_mem {α : Type} {l : List (Nat × α)} {k : Nat} {v : α}
    (h : lookupA l k = some v) : (k, v) ∈ l := by
  induction l with
  | nil => simp [lookupA] at h
  | cons p rest ih =>
    by_cases hp : p.1 = k
    · rw [lookupA_cons, if_pos hp] at h
      have hpv : (k, v) = p := by
        rw [← hp]
        rw [Option.some_inj] at h
        rw [← h]
      rw [hpv]
      exact List.mem_cons_self p rest
    · rw [lookupA_cons, if_neg hp] at h
      exact List.mem_cons_of_mem _ (ih h)

theorem lookupA_of_mem {α : Type} {l : List (Nat × α)} {k : Nat} {v : α}
    (hmem : (k, v) ∈ l) (hnd : (l.map Prod.fst).Nodup) : lookupA l k = some v := by
  induction l with
  | nil => simp at hmem
  | cons p rest ih =>
    rw [List.map_cons] at hnd
    have hnd1 := (List.nodup_cons.mp hnd).1
    have hnd2 := (List.nodup_cons.mp hnd).2
    rcases List.mem_cons.mp hmem with heq | htail
    · rw [lookupA_cons, ← heq]
      simp
    · have hk : k ∈ rest.map Prod.fst := List.mem_map.mpr ⟨(k, v), htail, rfl⟩
      have hp : p.1 ≠ k := by
        intro hcontra
        rw [hcontra] at hnd1
        exact hnd1 hk
      rw [lookupA_cons, if_neg hp]
      exact ih htail hnd2

theorem lookupA_append_of_none {α : Type} {l1 : List (Nat × α)}
    (l2 : List (Nat × α)) {k : Nat} (h : lookupA l1 k = none) :
    lookupA (l1 ++ l2) k = lookupA l2 k := by
  induction l1 with
  | nil => simp
  | cons p rest ih =>
    by_cases hp : p.1 = k
    · simp [lookupA, hp] at h
    · simp [lookupA, hp] at h ⊢
      exact ih h

theorem lookupA_append_of_some {α : Type} {l1 : List (Nat × α)}
    (l2 : List (Nat × α)) {k : Nat} {v : α} (h : lookupA l1 k = some v) :
    lookupA (l1 ++ l2) k = some v := by
  induction l1 with
  | nil => simp [lookupA] at h
  | cons p rest ih =>
    by_cases hp : p.1 = k
    · simp [lookupA, hp] at h ⊢
      exact h
    · simp [lookupA, hp] at h ⊢
      exact ih h

theorem keys_updA {α : Type} (l : List (Nat × α)) (k : Nat) (f : α → α) :
    (updA l k f).map Prod.fst = l.map Prod.fst := by
  induction l with
  | nil => rfl
  | cons p rest ih =>
    rw [updA_cons, List.map_cons, List.map_cons, ih]
    by_cases hp : p.1 = k
    · rw [if_pos hp]
    · rw [if_neg hp]

theorem lookupA_updA {α : Type} (l : List (Nat × α)) (k k2 : Nat) (f : α → α) :
    lookupA (updA l k f) k2 =
      if k2 = k then (lookupA l k).map f else lookupA l k2 := by
  induction l with
  | nil =>
    by_cases hk : k2 = k <;> simp [updA, lookupA, hk]
  | cons p rest ih =>
    by_cases hk : k2 = k
    · subst hk
      by_cases hp : p.1 = k2 <;> simp [updA_cons, lookupA_cons, hp, ih]
    · have hk2 : ¬k = k2 := fun hcontra => hk hcontra.symm
      by_cases hp : p.1 = k
      · have hp2 : ¬p.1 = k2 := fun hcontra => hk (hcontra.symm.trans hp)
        simp [updA_cons, lookupA_cons, hp, hp2, hk, hk2, ih]
      · by_cases hp2 : p.1 = k2 <;>
          simp [updA_cons, lookupA_cons, hp, hp2, hk, hk2, ih]

theorem updA_eq_self {α : Type} {l : List (Nat × α)} {k : Nat} {f : α → α}
    (h : ∀ e ∈ l, e.1 ≠ k) : updA l k f = l := by
  induction l with
  | nil => rfl
  | cons p rest ih =>
    have hp : p.1 ≠ k := h p (List.mem_cons_self p rest)
    rw [updA_cons, if_neg hp, ih fun e he => h e (List.mem_cons_of_mem p he)]

theorem updA_updA {α : Type} (l : List (Nat × α)) (k : Nat) (f g : α → α) :
    updA (updA l k f) k g = updA l k (fun x => g (f x)) := by
  induction l with
  | nil => rfl
  | cons p rest ih =>
    rw [updA_cons, updA_cons, updA_cons, ih]
    by_cases hp : p.1 = k
    · rw [if_pos hp, if_pos hp, if_pos hp]
    · rw [if_neg hp, if_neg hp, if_neg hp]

theorem updA_pointwise_id {α : Type} (l : List (Nat × α)) (k : Nat)
    {f : α → α} (hf : ∀ x, f x = x) : updA l k f = l := by
  induction l with
  | nil => rfl
  | cons p rest ih =>
    rw [updA_cons, ih]
    by_cases hp : p.1 = k
    · rw [if_pos hp, hf]
    · rw [if_neg hp]

theorem mem_eraseA {α : Type} {l : List (Nat × α)} {k : Nat} {e : Nat × α} :
    e ∈ eraseA l k ↔ e ∈ l ∧ e.1 ≠ k := by
  simp [eraseA, List.mem_filter]

theorem eraseA_sublist {α : Type} (l : List (Nat × α)) (k : Nat) :
    (eraseA l k).Sublist l := List.filter_sublist l

theorem lookupA_eraseA {α : Type} (l : List (Nat × α)) (k k2 : Nat) :
    lookupA (eraseA l k) k2 = if k2 = k then none else lookupA l k2 := by
  induction l with
  | nil =>
    by_cases hk : k2 = k <;> simp [eraseA, lookupA, hk]
  | cons p rest ih =>
    by_cases hk : k2 = k
    · subst hk
      by_cases hp : p.1 = k2 <;> simp [eraseA_cons, lookupA_cons, hp, ih]
    · have hk2 : ¬k = k2 := fun hcontra => hk hcontra.symm
      by_cases hp : p.1 = k
      · have hp2 : ¬p.1 = k2 := fun hcontra => hk (hcontra.symm.trans hp)
        simp [eraseA_cons, lookupA_cons, hp, hp2, hk, hk2, ih]
      · by_cases hp2 : p.1 = k2 <;>
          simp [eraseA_cons, lookupA_cons, hp, hp2, hk, hk2, ih]

theorem emplaceA_of_none {α : Type} {l : List (Nat × α)} {k : Nat} (v : α)
    (h : lookupA l k = none) : emplaceA l k v = l ++ [(k, v)] := by
  simp [emplaceA, h]

/-! ### Registry count-sum lemmas -/

theorem sumCounts_nil (id : Nat) : sumCounts [] id = 0 := rfl

theorem sumCounts_cons (e : Nat × Nat × Nat) (l : List (Nat × Nat × Nat))
    (id : Nat) :
    sumCounts (e :: l) id = (if e.2.1 = id then e.2.2 else 0) + sumCounts l id := by
  simp [sumCounts]

theorem sumCounts_append (l1 l2 : List (Nat × Nat × Nat)) (id : Nat) :
    sumCounts (l1 ++ l2) id = sumCounts l1 id + sumCounts l2 id := by
  simp [sumCounts]

theorem sumCounts_eq_zero {l : List (Nat × Nat × Nat)} {id : Nat}
    (h : ∀ e ∈ l, e.2.1 ≠ id) : sumCounts l id = 0 := by
  induction l with
  | nil => rfl
  | cons e rest ih =>
    rw [sumCounts_cons]
    have he : e.2.1 ≠ id := h e (List.mem_cons_self e rest)
    simp [he]
    exact ih fun x hx => h x (List.mem_cons_of_mem e hx)

theorem le_sumCounts {l : List (Nat × Nat × Nat)} {a id : Nat} {v : Nat × Nat}
    (hmem : (a, v) ∈ l) (hv : v.1 = id) : v.2 ≤ sumCounts l id := by
  induction l with
  | nil => simp at hmem
  | cons e rest ih =>
    rw [sumCounts_cons]
    rcases List.mem_cons.mp hmem with heq | htail
    · rw [← heq]
      simp [hv]
    · exact le_trans (ih htail) (Nat.le_add_left _ _)

theorem not_key_mem_of_nodup {α : Type} {e : Nat × α} {rest : List (Nat × α)}
    (hnd : ((e :: rest).map Prod.fst).Nodup) :
    ∀ x ∈ rest, x.1 ≠ e.1 := by
  rw [List.map_cons] at hnd
  intro x hx hcontra
  exact (List.nodup_cons.mp hnd).1
    (List.mem_map.mpr ⟨x, hx, hcontra⟩)

theorem sumCounts_updA {l : List (Nat × Nat × Nat)} {a : Nat} {v : Nat × Nat}
    (f : Nat × Nat → Nat × Nat) (hl : lookupA l a = some v)
    (hnd : (l.map Prod.fst).Nodup) (id : Nat) :
    sumCounts (updA l a f) id + (if v.1 = id then v.2 else 0)
      = sumCounts l id + (if (f v).1 = id then (f v).2 else 0) := by
  induction l with
  | nil => simp [lookupA] at hl
  | cons e rest ih =>
    by_cases hp : e.1 = a
    · rw [lookupA_cons, if_pos hp] at hl
      rw [Option.some_inj] at hl
      have hrest : updA rest a f = rest := by
        apply updA_eq_self
        intro x hx
        rw [← hp]
        exact not_key_mem_of_nodup hnd x hx
      rw [updA_cons, if_pos hp, hrest, sumCounts_cons, sumCounts_cons, ← hl]
      simp only [Prod.fst, Prod.snd]
      omega
    · rw [lookupA_cons, if_neg hp] at hl
      have hrec := ih hl (List.nodup_cons.mp (List.map_cons Prod.fst e rest ▸ hnd)).2
      rw [updA_cons, if_neg hp, sumCounts_cons, sumCounts_cons]
      omega

theorem sumCounts_eraseA {l : List (Nat × Nat × Nat)} {a : Nat} {v : Nat × Nat}
    (hl : lookupA l a = some v) (hnd : (l.map Prod.fst).Nodup) (id : Nat) :
    sumCounts (eraseA l a) id + (if v.1 = id then v.2 else 0) = sumCounts l id := by
  induction l with
  | nil => simp [lookupA] at hl
  | cons e rest ih =>
    by_cases hp : e.1 = a
    · rw [lookupA_cons, if_pos hp] at hl
      rw [Option.some_inj] at hl
      have hrest : eraseA rest a = rest := by
        apply List.filter_eq_self.mpr
        intro x hx
        have := not_key_mem_of_nodup hnd x hx
        simp only [decide_eq_true_eq]
        rw [← hp]
        exact this
      rw [eraseA_cons, if_pos hp, hrest, sumCounts_cons, ← hl]
      omega
    · rw [lookupA_cons, if_neg hp] at hl
      have hrec := ih hl (List.nodup_cons.mp (List.map_cons Prod.fst e rest ▸ hnd)).2
      rw [eraseA_cons, if_neg hp, sumCounts_cons, sumCounts_cons]
      omega

/-! ### Further helpers -/

theorem mem_updA {α : Type} {l : List (Nat × α)} {k : Nat} {f : α → α}
    {e : Nat × α} (he : e ∈ updA l k f) :
    ∃ e0 ∈ l, e = if e0.1 = k then (e0.1, f e0.2) else e0 := by
  rcases List.mem_map.mp he with ⟨e0, he0, heq⟩
  exact ⟨e0, he0, heq.symm⟩

theorem lookupA_isSome_of_mem {α : Type} {l : List (Nat × α)} {e : Nat × α}
    (he : e ∈ l) : (lookupA l e.1).isSome = true := by
  induction l with
  | nil => simp at he
  | cons p rest ih =>
    by_cases hp : p.1 = e.1
    · simp [lookupA_cons, hp]
    · rcases List.mem_cons.mp he with heq | htail
      · rw [heq] at hp
        exact absurd rfl hp
      · simp [lookupA_cons, hp, ih htail]

theorem nodup_keys_eraseA {α : Type} {l : List (Nat × α)} (k : Nat)
    (hnd : (l.map Prod.fst).Nodup) : ((eraseA l k).map Prod.fst).Nodup :=
  ((eraseA_sublist l k).map Prod.fst).nodup hnd

theorem nodup_keys_append_single {α : Type} {l : List (Nat × α)} {k : Nat}
    (v : α) (hnd : (l.map Prod.fst).Nodup) (hk : lookupA l k = none) :
    ((l ++ [(k, v)]).map Prod.fst).Nodup := by
  rw [List.map_append]
  rw [List.nodup_append]
  refine ⟨hnd, List.nodup_singleton k, ?_⟩
  intro x hx hxk
  rcases List.mem_map.mp hx with ⟨e, he, hex⟩
  have := lookupA_eq_none_iff.mp hk e he
  simp at hxk
  rw [hxk] at hex
  exact this hex

theorem sumCounts_append_single (l : List (Nat × Nat × Nat)) (a id c x : Nat) :
    sumCounts (l ++ [(a, (id, c))]) x
      = sumCounts l x + (if id = x then c else 0) := by
  rw [sumCounts_append]
  simp [sumCounts]

theorem sumCounts_zero_of_no_buffer {s : DriverState} (hInv : Invariant s)
    {id : Nat} (hid : lookupA s.buffers_ id = none) :
    sumCounts s.handles_ id = 0 := by
  apply sumCounts_eq_zero
  intro e he hcontra
  have h3 := hInv.2.2.1 e he
  rw [hcontra, hid] at h3
  simp at h3

/-! ### Invariant preservation -/

theorem invariant_empty : Invariant DriverState.empty := by
  refine ⟨List.nodup_nil, List.nodup_nil, ?_, ?_⟩ <;> intro e he <;>
    simp [DriverState.empty] at he

theorem invariant_insert_fresh {s : DriverState} (hInv : Invariant s)
    {a id boId : Nat} {oh : Option Nat}
    (hFreshA : lookupA s.handles_ a = none)
    (hFreshI : lookupA s.buffers_ id = none) :
    Invariant
      { s with
        liveBos := boId :: s.liveBos
        buffers_ := s.buffers_ ++ [(id, ⟨id, boId, oh, 1⟩)]
        handles_ := s.handles_ ++ [(a, (id, 1))] } := by
  obtain ⟨hnd1, hnd2, h3, h4⟩ := hInv
  refine ⟨nodup_keys_append_single _ hnd1 hFreshI,
    nodup_keys_append_single _ hnd2 hFreshA, ?_, ?_⟩
  · intro e he
    rcases List.mem_append.mp he with hold | hnew
    · have := h3 e hold
      refine ⟨this.1, ?_⟩
      rcases Option.isSome_iff_exists.mp this.2 with ⟨v, hv⟩
      rw [lookupA_append_of_some _ hv]
      rfl
    · simp at hnew
      rw [hnew]
      refine ⟨le_refl 1, ?_⟩
      rw [lookupA_append_of_none _ hFreshI]
      simp [lookupA]
  · intro p hp
    rcases List.mem_append.mp hp with hold | hnew
    · have h4p := h4 p hold
      refine ⟨h4p.1, ?_, h4p.2.2⟩
      rw [sumCounts_append_single]
      have hne : id ≠ p.1 := by
        intro hcontra
        have := lookupA_eq_none_iff.mp hFreshI p hold
        exact this hcontra.symm
      rw [if_neg hne, h4p.2.1, Nat.add_zero]
    · simp at hnew
      rw [hnew]
      refine ⟨rfl, ?_, Nat.one_pos⟩
      rw [sumCounts_append_single, if_pos rfl,
        sumCounts_zero_of_no_buffer ⟨hnd1, hnd2, h3, h4⟩ hFreshI]

theorem invariant_retain_fast {s : DriverState} (hInv : Invariant s)
    {a id c : Nat} (hreg : lookupA s.handles_ a = some (id, c)) :
    Invariant
      { s with
        handles_ := updA s.handles_ a (fun p => (p.1, p.2 + 1))
        buffers_ := updA s.buffers_ id
          (fun b => { b with refcount_ := b.refcount_ + 1 }) } := by
  obtain ⟨hnd1, hnd2, h3, h4⟩ := hInv
  have hmem := lookupA_mem hreg
  have hb := (h3 _ hmem).2
  rcases Option.isSome_iff_exists.mp hb with ⟨b0, hb0⟩
  refine ⟨?_, ?_, ?_, ?_⟩
  · rw [keys_updA]
    exact hnd1
  · rw [keys_updA]
    exact hnd2
  · intro e he
    replace he : e ∈ updA s.handles_ a (fun p => (p.1, p.2 + 1)) := he
    rcases mem_updA he with ⟨e0, he0, hform⟩
    have h3e := h3 e0 he0
    by_cases hkey : e0.1 = a
    · rw [if_pos hkey] at hform
      rw [hform]
      refine ⟨Nat.le_add_right_of_le h3e.1, ?_⟩
      rw [lookupA_updA]
      by_cases hq : e0.2.1 = id
      · simp [hq, hb0]
      · simp [hq]
        exact h3e.2
    · rw [if_neg hkey] at hform
      rw [hform]
      refine ⟨h3e.1, ?_⟩
      rw [lookupA_updA]
      by_cases hq : e0.2.1 = id
      · simp [hq, hb0]
      · simp [hq]
        exact h3e.2
  · intro p hp
    replace hp : p ∈ updA s.buffers_ id
        (fun b => { b with refcount_ := b.refcount_ + 1 }) := hp
    rcases mem_updA hp with ⟨p0, hp0, hform⟩
    obtain ⟨hid0, hrc0, hpos0⟩ := h4 p0 hp0
    have hsum := sumCounts_updA (fun p => (p.1, p.2 + 1)) hreg hnd2
    by_cases hkey : p0.1 = id
    · rw [if_pos hkey] at hform
      rw [hform]
      have hs := hsum p0.1
      rw [hkey] at hs
      simp at hs
      refine ⟨by simp [hid0, hkey], ?_, by simp⟩
      simp only
      rw [hrc0, hkey]
      omega
    · rw [if_neg hkey] at hform
      rw [hform]
      have hs := hsum p0.1
      rw [if_neg fun hcontra : id = p0.1 => hkey hcontra.symm,
        if_neg fun hcontra : id = p0.1 => hkey hcontra.symm] at hs
      refine ⟨hid0, ?_, hpos0⟩
      simp only
      omega

theorem invariant_retain_known {s : DriverState} (hInv : Invariant s)
    {a id : Nat} {b : Buffer} (hreg : lookupA s.handles_ a = none)
    (hb : lookupA s.buffers_ id = some b) :
    Invariant
      { s with
        buffers_ := updA s.buffers_ id
          (fun b => { b with refcount_ := b.refcount_ + 1 })
        handles_ := s.handles_ ++ [(a, (id, 1))] } := by
  obtain ⟨hnd1, hnd2, h3, h4⟩ := hInv
  refine ⟨?_, nodup_keys_append_single _ hnd2 hreg, ?_, ?_⟩
  · rw [keys_updA]
    exact hnd1
  · intro e he
    rcases List.mem_append.mp he with hold | hnew
    · have h3e := h3 e hold
      refine ⟨h3e.1, ?_⟩
      rw [lookupA_updA]
      by_cases hq : e.2.1 = id
      · simp [hq, hb]
      · simp [hq]
        exact h3e.2
    · simp at hnew
      rw [hnew]
      refine ⟨le_refl 1, ?_⟩
      simp [lookupA_updA, hb]
  · intro p hp
    replace hp : p ∈ updA s.buffers_ id
        (fun b => { b with refcount_ := b.refcount_ + 1 }) := hp
    rcases mem_updA hp with ⟨p0, hp0, hform⟩
    have h4p := h4 p0 hp0
    by_cases hkey : p0.1 = id
    · rw [if_pos hkey] at hform
      rw [hform]
      refine ⟨by rw [h4p.1, hkey], ?_, Nat.succ_pos _⟩
      rw [sumCounts_append_single, hkey, if_pos rfl, h4p.2.1, hkey]
    · rw [if_neg hkey] at hform
      rw [hform]
      refine ⟨h4p.1, ?_, h4p.2.2⟩
      rw [sumCounts_append_single,
        if_neg fun hcontra : id = p0.1 => hkey hcontra.symm, Nat.add_zero,
        h4p.2.1]

theorem invariant_retain {s s2 : DriverState} {a : Nat} {h : Handle}
    {o : RetainOutcome} (hInv : Invariant s)
    (hstep : retain s a h o = (.NONE, s2)) : Invariant s2 := by
  by_cases hm : h.magic = cros_gralloc_magic
  · cases hreg : lookupA s.handles_ a with
    | some v =>
      obtain ⟨id, c⟩ := v
      simp only [retain, cros_gralloc_convert_handle, hm, if_true, hreg,
        Prod.mk.injEq] at hstep
      rw [← hstep.2]
      exact invariant_retain_fast hInv hreg
    | none =>
      cases o with
      | primeFail =>
        simp [retain, cros_gralloc_convert_handle, hm, hreg] at hstep
      | prime id imp =>
        cases hb : lookupA s.buffers_ id with
        | some b =>
          simp only [retain, cros_gralloc_convert_handle, hm, if_true, hreg,
            hb, Prod.mk.injEq] at hstep
          rw [← hstep.2, emplaceA_of_none _ hreg]
          exact invariant_retain_known hInv hreg hb
        | none =>
          cases imp with
          | none =>
            simp [retain, cros_gralloc_convert_handle, hm, hreg, hb] at hstep
          | some boId =>
            simp only [retain, cros_gralloc_convert_handle, hm, if_true,
              hreg, hb, Prod.mk.injEq] at hstep
            rw [← hstep.2]
            rw [emplaceA_of_none _ hb, emplaceA_of_none _ hreg]
            exact invariant_insert_fresh hInv hreg hb
  · simp [retain, cros_gralloc_convert_handle, hm] at hstep

theorem invariant_release {s s2 : DriverState} {a : Nat} {h : Handle}
    (hInv : Invariant s) (hstep : release s a h = (.NONE, s2)) : Invariant s2 := by
  by_cases hm : h.magic = cros_gralloc_magic
  · cases hreg : lookupA s.handles_ a with
    | none => simp [release, cros_gralloc_convert_handle, hm, hreg] at hstep
    | some v =>
      obtain ⟨id, cnt⟩ := v
      obtain ⟨hnd1, hnd2, h3, h4⟩ := hInv
      have hmemA := lookupA_mem hreg
      have hcnt1 : 1 ≤ cnt := (h3 _ hmemA).1
      have hBsome : (lookupA s.buffers_ id).isSome = true := (h3 _ hmemA).2
      rcases Option.isSome_iff_exists.mp hBsome with ⟨b, hb⟩
      have hbid : b.id_ = id := (h4 _ (lookupA_mem hb)).1
      have hbrc : b.refcount_ = sumCounts s.handles_ id := (h4 _ (lookupA_mem hb)).2.1
      have hbpos : 0 < b.refcount_ := (h4 _ (lookupA_mem hb)).2.2
      have hsumge : cnt ≤ sumCounts s.handles_ id := le_sumCounts hmemA rfl
      simp only [release, cros_gralloc_convert_handle, hm, if_true, hreg,
        hb] at hstep
      by_cases hc : cnt - 1 = 0
      · have hE := fun x => sumCounts_eraseA hreg hnd2 x
        have hE_id : sumCounts (eraseA s.handles_ a) id + cnt
            = sumCounts s.handles_ id := by
          have := hE id
          simp at this
          omega
        have hE_ne : ∀ x, x ≠ id → sumCounts (eraseA s.handles_ a) x
            = sumCounts s.handles_ x := by
          intro x hx
          have := hE x
          rw [if_neg (show ¬((id, cnt).1 = x) from
            fun hcontra => hx hcontra.symm)] at this
          omega
        by_cases hr : b.refcount_ - 1 = 0
        · rw [if_pos hc, if_pos hr] at hstep
          simp only [Prod.mk.injEq] at hstep
          rw [← hstep.2, hbid]
          refine ⟨nodup_keys_eraseA _ hnd1, nodup_keys_eraseA _ hnd2, ?_, ?_⟩
          · intro e he
            replace he : e ∈ eraseA s.handles_ a := he
            obtain ⟨heOld, heNe⟩ := mem_eraseA.mp he
            refine ⟨(h3 e heOld).1, ?_⟩
            show (lookupA (eraseA s.buffers_ id) e.2.1).isSome = true
            rw [lookupA_eraseA]
            by_cases hq : e.2.1 = id
            · exfalso
              have hle : e.2.2 ≤ sumCounts (eraseA s.handles_ a) id :=
                le_sumCounts he hq
              have hcount := (h3 e heOld).1
              omega
            · rw [if_neg hq]
              exact (h3 e heOld).2
          · intro p hp
            replace hp : p ∈ eraseA s.buffers_ id := hp
            obtain ⟨hpOld, hpNe⟩ := mem_eraseA.mp hp
            obtain ⟨hid0, hrc0, hpos0⟩ := h4 p hpOld
            refine ⟨hid0, ?_, hpos0⟩
            show p.2.refcount_ = sumCounts (eraseA s.handles_ a) p.1
            rw [hE_ne p.1 hpNe]
            exact hrc0
        · rw [if_pos hc, if_neg hr] at hstep
          simp only [Prod.mk.injEq] at hstep
          rw [← hstep.2]
          refine ⟨?_, nodup_keys_eraseA _ hnd2, ?_, ?_⟩
          · rw [keys_updA]
            exact hnd1
          · intro e he
            replace he : e ∈ eraseA s.handles_ a := he
            obtain ⟨heOld, heNe⟩ := mem_eraseA.mp he
            refine ⟨(h3 e heOld).1, ?_⟩
            show (lookupA (updA s.buffers_ id
              (fun c => { c with refcount_ := c.refcount_ - 1 })) e.2.1).isSome
                = true
            rw [lookupA_updA]
            by_cases hq : e.2.1 = id
            · simp [hq, hb]
            · simp [hq]
              exact (h3 e heOld).2
          · intro p hp
            replace hp : p ∈ updA s.buffers_ id
                (fun c => { c with refcount_ := c.refcount_ - 1 }) := hp
            rcases mem_updA hp with ⟨p0, hp0, hform⟩
            obtain ⟨hid0, hrc0, hpos0⟩ := h4 p0 hp0
            by_cases hkey : p0.1 = id
            · have hp0b : p0.2 = b := by
                have hl := lookupA_of_mem (show (p0.1, p0.2) ∈ s.buffers_ from hp0) hnd1
                rw [hkey, hb] at hl
                exact (Option.some_inj.mp hl).symm
              rw [if_pos hkey] at hform
              rw [hform]
              refine ⟨by simp [hp0b, hbid, hkey], ?_, ?_⟩
              · show p0.2.refcount_ - 1
                  = sumCounts (eraseA s.handles_ a) p0.1
                rw [hp0b, hkey]
                omega
              · simp only
                rw [hp0b]
                omega
            · rw [if_neg hkey] at hform
              rw [hform]
              refine ⟨hid0, ?_, hpos0⟩
              show p0.2.refcount_ = sumCounts (eraseA s.handles_ a) p0.1
              rw [hE_ne p0.1 hkey]
              exact hrc0
      · have hU := fun x =>
          sumCounts_updA (fun p => (p.1, p.2 - 1)) hreg hnd2 x
        have hU_id : sumCounts (updA s.handles_ a fun p => (p.1, p.2 - 1)) id
            + cnt = sumCounts s.handles_ id + (cnt - 1) := by
          have := hU id
          simp at this
          omega
        have hU_ne : ∀ x, x ≠ id →
            sumCounts (updA s.handles_ a fun p => (p.1, p.2 - 1)) x
              = sumCounts s.handles_ x := by
          intro x hx
          have := hU x
          rw [if_neg (show ¬((id, cnt).1 = x) from
              fun hcontra => hx hcontra.symm),
            if_neg (show ¬(((fun p => (p.1, p.2 - 1)) ((id, cnt) : Nat × Nat)).1 = x) from
              fun hcontra => hx hcontra.symm)] at this
          omega
        by_cases hr : b.refcount_ - 1 = 0
        · exfalso
          omega
        · rw [if_neg hc, if_neg hr] at hstep
          simp only [Prod.mk.injEq] at hstep
          rw [← hstep.2]
          refine ⟨?_, ?_, ?_, ?_⟩
          · rw [keys_updA]
            exact hnd1
          · rw [keys_updA]
            exact hnd2
          · intro e he
            replace he : e ∈ updA s.handles_ a (fun p => (p.1, p.2 - 1)) := he
            rcases mem_updA he with ⟨e0, he0, hform⟩
            by_cases hkey : e0.1 = a
            · have he0v : e0.2 = (id, cnt) := by
                have hl := lookupA_of_mem (show (e0.1, e0.2) ∈ s.handles_ from he0) hnd2
                rw [hkey, hreg] at hl
                exact (Option.some_inj.mp hl).symm
              rw [if_pos hkey] at hform
              rw [hform]
              constructor
              · simp only [he0v]
                omega
              · show (lookupA (updA s.buffers_ id
                  (fun c => { c with refcount_ := c.refcount_ - 1 }))
                    ((fun p => (p.1, p.2 - 1)) e0.2).1).isSome = true
                rw [he0v, lookupA_updA]
                simp [hb]
            · rw [if_neg hkey] at hform
              rw [hform]
              refine ⟨(h3 e0 he0).1, ?_⟩
              show (lookupA (updA s.buffers_ id
                (fun c => { c with refcount_ := c.refcount_ - 1 }))
                  e0.2.1).isSome = true
              rw [lookupA_updA]
              by_cases hq : e0.2.1 = id
              · simp [hq, hb]
              · simp [hq]
                exact (h3 e0 he0).2
          · intro p hp
            replace hp : p ∈ updA s.buffers_ id
                (fun c => { c with refcount_ := c.refcount_ - 1 }) := hp
            rcases mem_updA hp with ⟨p0, hp0, hform⟩
            obtain ⟨hid0, hrc0, hpos0⟩ := h4 p0 hp0
            by_cases hkey : p0.1 = id
            · have hp0b : p0.2 = b := by
                have hl := lookupA_of_mem (show (p0.1, p0.2) ∈ s.buffers_ from hp0) hnd1
                rw [hkey, hb] at hl
                exact (Option.some_inj.mp hl).symm
              rw [if_pos hkey] at hform
              rw [hform]
              refine ⟨by simp [hp0b, hbid, hkey], ?_, ?_⟩
              · show p0.2.refcount_ - 1
                  = sumCounts (updA s.handles_ a fun p => (p.1, p.2 - 1)) p0.1
                rw [hp0b, hkey]
                omega
              · simp only
                rw [hp0b]
                omega
            · rw [if_neg hkey] at hform
              rw [hform]
              refine ⟨hid0, ?_, hpos0⟩
              show p0.2.refcount_
                = sumCounts (updA s.handles_ a fun p => (p.1, p.2 - 1)) p0.1
              rw [hU_ne p0.1 hkey]
              exact hrc0
  · simp [release, cros_gralloc_convert_handle, hm] at hstep

theorem invariant_allocate {s s2 : DriverState} {o : AllocOutcome}
    {hndAddr : Nat} {h : Handle} (hInv : Invariant s)
    (hFreshA : lookupA s.handles_ hndAddr = none)
    (hFresh : allocFresh s o)
    (hstep : allocate s o hndAddr = (.NONE, some h, s2)) : Invariant s2 := by
  cases o with
  | createFail => simp [allocate] at hstep
  | created boId numBuffers numPlanes id mods =>
    by_cases hnb : numBuffers ≠ 1
    · simp [allocate, hnb] at hstep
    · simp only [allocate, hnb, if_false, Prod.mk.injEq] at hstep
      rw [← hstep.2.2]
      rw [emplaceA_of_none _ hFresh, emplaceA_of_none _ hFreshA]
      exact invariant_insert_fresh hInv hFreshA hFresh

theorem invariant_step {s s2 : DriverState} (hInv : Invariant s)
    (hstep : Step s s2) : Invariant s2 := by
  cases hstep with
  | stepAllocate s o hndAddr h hA hF hq => exact invariant_allocate hInv hA hF hq
  | stepRetain s a h o hq => exact invariant_retain hInv hq
  | stepRelease s a h hq => exact invariant_release hInv hq

theorem invariant_reachable {s : DriverState} (hs : Reachable s) : Invariant s := by
  induction hs with
  | empty => exact invariant_empty
  | step s s2 hr hstep ih => exact invariant_step ih hstep

/-! ### Concrete states used to exercise the theorems -/

/-- A backend response: one buffer object, one plane, Allocation Identity
42, backend object 7, all modifiers zero. -/
def oW : AllocOutcome := .created 7 1 1 42 (fun _ => 0)

/-- The handle `allocate` constructs for `oW`. -/
def hndW : Handle :=
  { magic := cros_gralloc_magic
    fds := fun p => p
    strides := fun _ => 0
    offsets := fun _ => 0
    sizes := fun _ => 0
    format_modifiers := allocFormatModifiers (fun _ => 0)
    width := 0
    height := 0
    format := 0
    pixel_stride := 0 }

/-- A handle whose magic tag is wrong. -/
def hndBad : Handle := { hndW with magic := 0 }

/-- The state after one successful allocation from the empty state. -/
def sW : DriverState :=
  ⟨[(42, ⟨42, 7, some 100, 1⟩)], [(100, (42, 1))], [7]⟩

theorem sW_reachable : Reachable sW :=
  Reachable.step _ _ Reachable.empty
    (Step.stepAllocate DriverState.empty oW 100 hndW sW rfl rfl rfl)

/-! ### Claims -/

/-- C1: in every state reachable by successful allocate/retain/release
operations from the empty state, each Buffer's reference count equals the
sum of the Handle Registry counts referencing it, and a Buffer Table entry
for an Allocation Identity exists iff the total reference count on that
identity is positive (release dropping it to 0 removes the entry). -/
theorem refcount_invariant_reachable {s : DriverState} (hs : Reachable s) :
    (∀ p ∈ s.buffers_, p.2.refcount_ = sumCounts s.handles_ p.1) ∧
    (∀ id : Nat,
      (lookupA s.buffers_ id).isSome = true ↔ 0 < sumCounts s.handles_ id) := by
  obtain ⟨hnd1, hnd2, h3, h4⟩ := invariant_reachable hs
  refine ⟨fun p hp => (h4 p hp).2.1, fun id => ⟨?_, ?_⟩⟩
  · intro hsome
    rcases Option.isSome_iff_exists.mp hsome with ⟨b, hb⟩
    have heq : b.refcount_ = sumCounts s.handles_ id := (h4 _ (lookupA_mem hb)).2.1
    have hpos : 0 < b.refcount_ := (h4 _ (lookupA_mem hb)).2.2
    omega
  · intro hpos
    by_contra hnone
    have hn : lookupA s.buffers_ id = none := by
      cases hq : lookupA s.buffers_ id with
      | none => rfl
      | some b =>
        rw [hq] at hnone
        simp at hnone
    have := sumCounts_zero_of_no_buffer ⟨hnd1, hnd2, h3, h4⟩ hn
    omega

/-- Witness for C1 at the state reached by one successful allocation. -/
theorem refcount_invariant_reachable_witness :
    (∀ p ∈ sW.buffers_, p.2.refcount_ = sumCounts sW.handles_ p.1) ∧
    (∀ id : Nat,
      (lookupA sW.buffers_ id).isSome = true ↔ 0 < sumCounts sW.handles_ id) :=
  refcount_invariant_reachable sW_reachable

/-- C2: whenever allocate or retain returns a status other than `NONE`,
the state (Buffer Table, Handle Registry and live backend allocations)
after the call equals the state before it. -/
theorem fail_leaves_state_unchanged (s : DriverState) (o : AllocOutcome)
    (hndAddr a : Nat) (h : Handle) (ro : RetainOutcome) :
    ((allocate s o hndAddr).1 ≠ Status.NONE → (allocate s o hndAddr).2.2 = s) ∧
    ((retain s a h ro).1 ≠ Status.NONE → (retain s a h ro).2 = s) := by
  constructor
  · intro hne
    cases o with
    | createFail => rfl
    | created boId numBuffers numPlanes id mods =>
      by_cases hnb : numBuffers ≠ 1
      · simp [allocate, hnb, List.erase_cons_head]
      · simp [allocate, hnb] at hne
  · intro hne
    by_cases hm : h.magic = cros_gralloc_magic
    · cases hreg : lookupA s.handles_ a with
      | some v =>
        obtain ⟨id, c⟩ := v
        simp [retain, cros_gralloc_convert_handle, hm, hreg] at hne
      | none =>
        cases ro with
        | primeFail => simp [retain, cros_gralloc_convert_handle, hm, hreg]
        | prime id imp =>
          cases hb : lookupA s.buffers_ id with
          | some b =>
            simp [retain, cros_gralloc_convert_handle, hm, hreg, hb] at hne
          | none =>
            cases imp with
            | none => simp [retain, cros_gralloc_convert_handle, hm, hreg, hb]
            | some boId =>
              simp [retain, cros_gralloc_convert_handle, hm, hreg, hb] at hne
    · simp [retain, cros_gralloc_convert_handle, hm]

/-- Witness for C2: a failed creation and a failed descriptor resolution
leave the empty state untouched. -/
theorem fail_leaves_state_unchanged_witness :
    (allocate DriverState.empty .createFail 0).2.2 = DriverState.empty ∧
    (retain DriverState.empty 0 hndW .primeFail).2 = DriverState.empty :=
  ⟨(fail_leaves_state_unchanged DriverState.empty .createFail 0 0 hndW
      .primeFail).1 (by decide),
   (fail_leaves_state_unchanged DriverState.empty .createFail 0 0 hndW
      .primeFail).2 (by decide)⟩

/-- C3: `release` on a handle that fails the magic check, or that has no
Handle Registry entry, returns `BAD_HANDLE` and returns the state
unchanged (no table and no reference count is touched). -/
theorem release_invalid_no_mutation (s : DriverState) (a : Nat) (h : Handle)
    (hbad : h.magic ≠ cros_gralloc_magic ∨ lookupA s.handles_ a = none) :
    release s a h = (Status.BAD_HANDLE, s) := by
  by_cases hm : h.magic = cros_gralloc_magic
  · rcases hbad with hmagic | hreg
    · exact absurd hm hmagic
    · simp [release, cros_gralloc_convert_handle, hm, hreg]
  · simp [release, cros_gralloc_convert_handle, hm]

/-- Witness for C3: releasing a never-added handle in the empty state. -/
theorem release_invalid_no_mutation_witness :
    (hndW.magic ≠ cros_gralloc_magic ∨
      lookupA DriverState.empty.handles_ 0 = none) ∧
    release DriverState.empty 0 hndW = (Status.BAD_HANDLE, DriverState.empty) :=
  ⟨Or.inr rfl, release_invalid_no_mutation DriverState.empty 0 hndW (Or.inr rfl)⟩

/-- C5: when the backend reports a number of buffer objects different from
one, `allocate` returns `NO_RESOURCES` with no handle, destroys the
just-created backend allocation, and the resulting state (both tables and
the live allocations) is exactly the original. -/
theorem allocate_multi_buffer_rejected (s : DriverState)
    (boId numBuffers numPlanes id hndAddr : Nat) (mods : Nat → Nat)
    (hnb : numBuffers ≠ 1) :
    allocate s (.created boId numBuffers numPlanes id mods) hndAddr
      = (Status.NO_RESOURCES, none, s) := by
  simp [allocate, hnb, List.erase_cons_head]

/-- Witness for C5: a two-buffer-object allocation is rejected without a
trace. -/
theorem allocate_multi_buffer_rejected_witness :
    (2 ≠ 1) ∧
    allocate DriverState.empty (.created 7 2 1 42 (fun _ => 0)) 100
      = (Status.NO_RESOURCES, none, DriverState.empty) :=
  ⟨by decide,
   allocate_multi_buffer_rejected DriverState.empty 7 2 1 42 100
     (fun _ => 0) (by decide)⟩

/-- C10: a handle that passes the magic check but has no Registry entry,
whose primary descriptor the backend cannot resolve, makes `retain` return
`BAD_HANDLE` (not `NO_RESOURCES`) with the state unchanged. -/
theorem retain_unresolvable_bad_handle (s : DriverState) (a : Nat)
    (h : Handle) (hm : h.magic = cros_gralloc_magic)
    (hreg : lookupA s.handles_ a = none) :
    retain s a h .primeFail = (Status.BAD_HANDLE, s) := by
  simp [retain, cros_gralloc_convert_handle, hm, hreg]

/-- Witness for C10: an unregistered valid-magic handle in the empty state
whose descriptor resolution fails. -/
theorem retain_unresolvable_bad_handle_witness :
    hndW.magic = cros_gralloc_magic ∧
    lookupA DriverState.empty.handles_ 0 = none ∧
    retain DriverState.empty 0 hndW .primeFail
      = (Status.BAD_HANDLE, DriverState.empty) :=
  ⟨rfl, rfl, retain_unresolvable_bad_handle DriverState.empty 0 hndW rfl rfl⟩

/-- C4 counterexample: the claim says every handle with a non-negative
`acquire_fence` gets `UNSUPPORTED`, but `lock` validates the handle first:
an invalid-magic handle with `acquire_fence = 0` gets `BAD_HANDLE`. -/
theorem lock_invalid_fence_counterexample :
    lock DriverState.empty 0 hndBad 0 Status.NONE = Status.BAD_HANDLE ∧
    Status.BAD_HANDLE ≠ Status.UNSUPPORTED := by
  constructor
  · rfl
  · decide

/-- C4 (amended): for every handle that passes the magic check and is
present in the Handle Registry, `lock` with a non-negative `acquire_fence`
returns `UNSUPPORTED` (invalid or unregistered handles get `BAD_HANDLE`
first). -/
theorem lock_registered_fence_unsupported (s : DriverState) (a : Nat)
    (h : Handle) (fence : Int) (bufferLock : Status)
    (hm : h.magic = cros_gralloc_magic)
    (hreg : (lookupA s.handles_ a).isSome = true) (hf : 0 ≤ fence) :
    lock s a h fence bufferLock = Status.UNSUPPORTED := by
  rcases Option.isSome_iff_exists.mp hreg with ⟨v, hv⟩
  simp [lock, cros_gralloc_convert_handle, hm, hv, hf]

/-- Witness for the amended C4: the registered handle of `sW` with a zero
fence. -/
theorem lock_registered_fence_unsupported_witness :
    hndW.magic = cros_gralloc_magic ∧
    (lookupA sW.handles_ 100).isSome = true ∧
    (0 : Int) ≤ 0 ∧
    lock sW 100 hndW 0 Status.NONE = Status.UNSUPPORTED :=
  ⟨rfl, rfl, le_refl 0,
   lock_registered_fence_unsupported sW 100 hndW 0 Status.NONE rfl rfl
     (le_refl 0)⟩

/-- C7: with one registered handle `a1` (count 1) on Allocation Identity
`id` and a second, distinct, unregistered handle `a2` resolving to the same
identity, `retain` on `a2` succeeds, creates no second Buffer (the Buffer
Table keys are unchanged), adds a Registry entry with count 1 and
increments the shared Buffer's refcount; then releasing `a1` down to
registry count 0 succeeds and leaves `a2`'s Registry entry and the shared
Buffer intact, the refcount back at its positive original value. -/
theorem shared_buffer_two_handles (s : DriverState) (a1 a2 id : Nat)
    (h1 h2 : Handle) (b : Buffer) (imp : Option Nat)
    (hInv : Invariant s)
    (hm1 : h1.magic = cros_gralloc_magic) (hm2 : h2.magic = cros_gralloc_magic)
    (hne : a1 ≠ a2)
    (hreg1 : lookupA s.handles_ a1 = some (id, 1))
    (hreg2 : lookupA s.handles_ a2 = none)
    (hb : lookupA s.buffers_ id = some b) :
    (retain s a2 h2 (.prime id imp)).1 = Status.NONE ∧
    (retain s a2 h2 (.prime id imp)).2.buffers_.map Prod.fst
      = s.buffers_.map Prod.fst ∧
    lookupA (retain s a2 h2 (.prime id imp)).2.handles_ a2 = some (id, 1) ∧
    lookupA (retain s a2 h2 (.prime id imp)).2.buffers_ id
      = some { b with refcount_ := b.refcount_ + 1 } ∧
    (release (retain s a2 h2 (.prime id imp)).2 a1 h1).1 = Status.NONE ∧
    lookupA (release (retain s a2 h2 (.prime id imp)).2 a1 h1).2.handles_ a2
      = some (id, 1) ∧
    lookupA (release (retain s a2 h2 (.prime id imp)).2 a1 h1).2.buffers_ id
      = some b ∧
    0 < b.refcount_ := by
  have hbpos : 0 < b.refcount_ :=
    ((hInv.2.2.2 _ (lookupA_mem hb)).2.2 :)
  have hret : retain s a2 h2 (.prime id imp)
      = (Status.NONE,
         { s with
           buffers_ := updA s.buffers_ id
             (fun x => { x with refcount_ := x.refcount_ + 1 })
           handles_ := s.handles_ ++ [(a2, (id, 1))] }) := by
    simp [retain, cros_gralloc_convert_handle, hm2, hreg2, hb,
      emplaceA_of_none _ hreg2]
  rw [hret]
  have hlook2 : lookupA (s.handles_ ++ [(a2, (id, 1))]) a2 = some (id, 1) := by
    rw [lookupA_append_of_none _ hreg2]
    simp [lookupA]
  have hlookb : lookupA (updA s.buffers_ id
      (fun x => { x with refcount_ := x.refcount_ + 1 })) id
        = some { b with refcount_ := b.refcount_ + 1 } := by
    rw [lookupA_updA, if_pos rfl, hb]
    rfl
  have hlook1 : lookupA (s.handles_ ++ [(a2, (id, 1))]) a1 = some (id, 1) :=
    lookupA_append_of_some _ hreg1
  have hrel : release
      ({ s with
         buffers_ := updA s.buffers_ id
           (fun x => { x with refcount_ := x.refcount_ + 1 })
         handles_ := s.handles_ ++ [(a2, (id, 1))] } : DriverState) a1 h1
      = (Status.NONE,
         { s with
           handles_ := eraseA (s.handles_ ++ [(a2, (id, 1))]) a1
           buffers_ := updA (updA s.buffers_ id
             (fun x => { x with refcount_ := x.refcount_ + 1 })) id
               (fun c => { c with refcount_ := c.refcount_ - 1 }) }) := by
    simp only [release, cros_gralloc_convert_handle, hm1, if_true, hlook1,
      hlookb]
    rw [if_neg (show ¬(b.refcount_ + 1 - 1 = 0) by omega)]
  rw [hrel]
  refine ⟨rfl, ?_, hlook2, hlookb, rfl, ?_, ?_, hbpos⟩
  · show List.map Prod.fst (updA s.buffers_ id
      (fun x => { x with refcount_ := x.refcount_ + 1 }))
        = List.map Prod.fst s.buffers_
    exact keys_updA _ _ _
  · rw [lookupA_eraseA, if_neg (fun hcontra => hne hcontra.symm)]
    exact hlook2
  · rw [updA_updA, lookupA_updA, if_pos rfl, hb]
    show some { b with refcount_ := b.refcount_ + 1 - 1 } = some b
    have : b.refcount_ + 1 - 1 = b.refcount_ := by omega
    rw [this]

/-- Witness for C7: the allocated handle of `sW` plus a second handle
address resolving to the same Allocation Identity 42. -/
theorem shared_buffer_two_handles_witness :
    Invariant sW ∧ (100 : Nat) ≠ 101 ∧
    ((retain sW 101 hndW (.prime 42 none)).1 = Status.NONE ∧
     (retain sW 101 hndW (.prime 42 none)).2.buffers_.map Prod.fst
       = sW.buffers_.map Prod.fst ∧
     lookupA (retain sW 101 hndW (.prime 42 none)).2.handles_ 101
       = some (42, 1) ∧
     lookupA (retain sW 101 hndW (.prime 42 none)).2.buffers_ 42
       = some { id_ := 42, bo_ := 7, hnd_ := some 100, refcount_ := 2 } ∧
     (release (retain sW 101 hndW (.prime 42 none)).2 100 hndW).1
       = Status.NONE ∧
     lookupA (release (retain sW 101 hndW (.prime 42 none)).2 100
       hndW).2.handles_ 101 = some (42, 1) ∧
     lookupA (release (retain sW 101 hndW (.prime 42 none)).2 100
       hndW).2.buffers_ 42
         = some { id_ := 42, bo_ := 7, hnd_ := some 100, refcount_ := 1 } ∧
     0 < ({ id_ := 42, bo_ := 7, hnd_ := some 100,
            refcount_ := 1 } : Buffer).refcount_) :=
  ⟨⟨by decide, by decide, by decide, by decide⟩, by decide,
   shared_buffer_two_handles sW 100 101 42 hndW hndW
     ⟨42, 7, some 100, 1⟩ none ⟨by decide, by decide, by decide, by decide⟩
     rfl rfl (by decide) rfl rfl rfl⟩

theorem updA_congr {α : Type} (l : List (Nat × α)) (k : Nat) {f g : α → α}
    (h : ∀ x, f x = g x) : updA l k f = updA l k g := by
  induction l with
  | nil => rfl
  | cons p rest ih =>
    rw [updA_cons, updA_cons, ih]
    by_cases hp : p.1 = k
    · rw [if_pos hp, if_pos hp, h]
    · rw [if_neg hp, if_neg hp]

/-- Consecutive `retain` calls on one handle, with backend responses `os`. -/
def retainN (a : Nat) (h : Handle) (os : List RetainOutcome)
    (s : DriverState) : DriverState :=
  match os with
  | [] => s
  | o :: rest => retainN a h rest (retain s a h o).2

/-- Consecutive `release` calls on one handle. -/
def releaseN (a : Nat) (h : Handle) : Nat → DriverState → DriverState
  | 0, s => s
  | n + 1, s => releaseN a h n (release s a h).2

theorem retain_fast_eq {s : DriverState} {a id c : Nat} {h : Handle}
    (o : RetainOutcome) (hm : h.magic = cros_gralloc_magic)
    (hreg : lookupA s.handles_ a = some (id, c)) :
    retain s a h o
      = (Status.NONE,
         { s with
           handles_ := updA s.handles_ a (fun p => (p.1, p.2 + 1))
           buffers_ := updA s.buffers_ id
             (fun b => { b with refcount_ := b.refcount_ + 1 }) }) := by
  simp [retain, cros_gralloc_convert_handle, hm, hreg]

theorem retainN_shape {a : Nat} {h : Handle}
    (hm : h.magic = cros_gralloc_magic) :
    ∀ (os : List RetainOutcome) (s : DriverState) (id c : Nat),
      lookupA s.handles_ a = some (id, c) →
      retainN a h os s
        = { s with
            handles_ := updA s.handles_ a
              (fun p => (p.1, p.2 + os.length))
            buffers_ := updA s.buffers_ id
              (fun b => { b with refcount_ := b.refcount_ + os.length }) } := by
  intro os
  induction os with
  | nil =>
    intro s id c hreg
    show s = _
    rw [updA_pointwise_id _ _ (fun x => by simp),
      updA_pointwise_id _ _ (fun x => by simp)]
  | cons o rest ih =>
    intro s id c hreg
    show retainN a h rest (retain s a h o).2 = _
    have h2 : (retain s a h o).2
        = ({ s with
             handles_ := updA s.handles_ a (fun p => (p.1, p.2 + 1))
             buffers_ := updA s.buffers_ id
               (fun b => { b with refcount_ := b.refcount_ + 1 }) }
           : DriverState) := by
      rw [retain_fast_eq o hm hreg]
    rw [h2]
    have hreg1 : lookupA (updA s.handles_ a
        (fun p => (p.1, p.2 + 1))) a = some (id, c + 1) := by
      rw [lookupA_updA, if_pos rfl, hreg]
      rfl
    rw [ih _ id (c + 1) hreg1]
    congr 1
    · rw [updA_updA]
      apply updA_congr
      intro x
      simp
      omega
    · rw [updA_updA]
      apply updA_congr
      intro x
      simp
      omega

theorem releaseN_shape {a id c : Nat} {h : Handle} {s : DriverState}
    {b : Buffer} (hm : h.magic = cros_gralloc_magic)
    (hreg : lookupA s.handles_ a = some (id, c)) (hc : 1 ≤ c)
    (hb : lookupA s.buffers_ id = some b) (hrc : 1 ≤ b.refcount_) :
    ∀ m : Nat,
      releaseN a h m
        ({ s with
           handles_ := updA s.handles_ a (fun p => (p.1, p.2 + m))
           buffers_ := updA s.buffers_ id
             (fun x => { x with refcount_ := x.refcount_ + m }) })
        = s := by
  intro m
  induction m with
  | zero =>
    show ({ s with
            handles_ := updA s.handles_ a _
            buffers_ := updA s.buffers_ id _ } : DriverState) = s
    rw [updA_pointwise_id _ _ (fun x => by simp),
      updA_pointwise_id _ _ (fun x => by simp)]
  | succ m ih =>
    have hlook : lookupA (updA s.handles_ a
        (fun p => (p.1, p.2 + (m + 1)))) a = some (id, c + (m + 1)) := by
      rw [lookupA_updA, if_pos rfl, hreg]
      rfl
    have hlookb : lookupA (updA s.buffers_ id
        (fun x => { x with refcount_ := x.refcount_ + (m + 1) })) id
          = some { b with refcount_ := b.refcount_ + (m + 1) } := by
      rw [lookupA_updA, if_pos rfl, hb]
      rfl
    have hrel : release
        ({ s with
           handles_ := updA s.handles_ a (fun p => (p.1, p.2 + (m + 1)))
           buffers_ := updA s.buffers_ id
             (fun x => { x with refcount_ := x.refcount_ + (m + 1) }) }
         : DriverState) a h
        = (Status.NONE,
           { s with
             handles_ := updA s.handles_ a (fun p => (p.1, p.2 + m))
             buffers_ := updA s.buffers_ id
               (fun x => { x with refcount_ := x.refcount_ + m }) }) := by
      simp only [release, cros_gralloc_convert_handle, hm, if_true, hlook,
        hlookb]
      rw [if_neg (show ¬(c + (m + 1) - 1 = 0) by omega),
        if_neg (show ¬(b.refcount_ + (m + 1) - 1 = 0) by omega)]
      congr 1
      congr 1
      · rw [updA_updA]
        apply updA_congr
        intro x
        simp
      · rw [updA_updA]
        apply updA_congr
        intro x
        simp
    show releaseN a h m (release _ a h).2 = s
    rw [hrel]
    exact ih

/-- C6: on a registered handle of an invariant-satisfying state, `n`
successful retain calls followed by `n` release calls return the whole
state, and in particular the Buffer Table, to what it was before the first
retain. -/
theorem retain_release_roundtrip (s : DriverState) (a : Nat) (h : Handle)
    (id c : Nat) (os : List RetainOutcome) (hInv : Invariant s)
    (hm : h.magic = cros_gralloc_magic)
    (hreg : lookupA s.handles_ a = some (id, c)) (_hn : 1 ≤ os.length) :
    releaseN a h os.length (retainN a h os s) = s ∧
    (releaseN a h os.length (retainN a h os s)).buffers_ = s.buffers_ := by
  have hmem := lookupA_mem hreg
  have hc : 1 ≤ c := (hInv.2.2.1 _ hmem).1
  have hBsome : (lookupA s.buffers_ id).isSome = true := (hInv.2.2.1 _ hmem).2
  rcases Option.isSome_iff_exists.mp hBsome with ⟨b, hb⟩
  have hrc : 1 ≤ b.refcount_ := (hInv.2.2.2 _ (lookupA_mem hb)).2.2
  have hfull : releaseN a h os.length (retainN a h os s) = s := by
    rw [retainN_shape hm os s id c hreg]
    exact releaseN_shape hm hreg hc hb hrc os.length
  exact ⟨hfull, by rw [hfull]⟩

/-- Witness for C6: one retain and one release on the registered handle of
`sW`. -/
theorem retain_release_roundtrip_witness :
    Invariant sW ∧ hndW.magic = cros_gralloc_magic ∧
    lookupA sW.handles_ 100 = some (42, 1) ∧
    1 ≤ [RetainOutcome.primeFail].length ∧
    (releaseN 100 hndW [RetainOutcome.primeFail].length
        (retainN 100 hndW [RetainOutcome.primeFail] sW) = sW ∧
      (releaseN 100 hndW [RetainOutcome.primeFail].length
        (retainN 100 hndW [RetainOutcome.primeFail] sW)).buffers_
          = sW.buffers_) :=
  ⟨⟨by decide, by decide, by decide, by decide⟩, rfl, rfl, by decide,
   retain_release_roundtrip sW 100 hndW 42 1 [RetainOutcome.primeFail]
     ⟨by decide, by decide, by decide, by decide⟩ rfl rfl (by decide)⟩

/-- C9: for any 64-bit format modifier reported by the backend, the
packing `allocate` performs (high word at index `2 * plane`, low word at
`2 * plane + 1`) followed by the unpacking `retain` performs (high word
shifted left 32, or-ed with the low word) gives back the original modifier
on every plane. -/
theorem format_modifier_roundtrip (mods : Nat → Nat) (p : Nat)
    (hmod : mods p < 2 ^ 64) :
    retainUnpackModifier (allocFormatModifiers mods) p = mods p := by
  unfold retainUnpackModifier allocFormatModifiers packModHi packModLo
  rw [if_pos (show 2 * p % 2 = 0 by omega),
    if_neg (show ¬((2 * p + 1) % 2 = 0) by omega),
    show 2 * p / 2 = p by omega, show (2 * p + 1) / 2 = p by omega]
  have hsr : mods p >>> 32 = mods p / 2 ^ 32 :=
    Nat.shiftRight_eq_div_pow (mods p) 32
  have hlt : mods p / 2 ^ 32 < 2 ^ 32 := by
    apply Nat.div_lt_of_lt_mul
    have hpow : (2 : Nat) ^ 32 * 2 ^ 32 = 2 ^ 64 := by norm_num
    omega
  rw [hsr, Nat.mod_eq_of_lt hlt, Nat.shiftLeft_eq, Nat.mul_comm,
    ← Nat.mul_add_lt_is_or (Nat.mod_lt (mods p) (by norm_num)) (mods p / 2 ^ 32)]
  exact Nat.div_add_mod (mods p) (2 ^ 32)

/-- Witness for C9: a concrete 64-bit modifier survives the round trip. -/
theorem format_modifier_roundtrip_witness :
    (0x123456789ABCDEF0 : Nat) < 2 ^ 64 ∧
    retainUnpackModifier
        (allocFormatModifiers (fun _ => 0x123456789ABCDEF0)) 0
      = 0x123456789ABCDEF0 :=
  ⟨by norm_num,
   format_modifier_roundtrip (fun _ => 0x123456789ABCDEF0) 0 (by norm_num)⟩

/-! ### C8: the init probe order -/

/-- A probed node yields a valid backend handle: `open`/`drmGetVersion`
succeed and `drv_create` returns a driver. -/
def nodeValid (env : Nat → ProbeResult) (j : Nat) : Bool :=
  (env j).versionName.isSome && (env j).drvOk

/-- The node's driver name is on the blocklist. -/
def nodeBlocked (env : Nat → ProbeResult) (j : Nat) : Bool :=
  decide ((env j).versionName = some "vgem")

/-- The amended description of `init` as a two-pass scan: the first pass
selects the first node that yields a valid handle and is not blocklisted;
failing that, a second pass selects the first node that yields a valid
handle regardless of the blocklist; only when no node yields a valid
handle does init report `NO_RESOURCES`. -/
def initSpecTwoPass (env : Nat → ProbeResult) : Status × Option Nat :=
  match (List.range' min_node num_nodes).find?
      (fun j => nodeValid env j && !nodeBlocked env j) with
  | some j => (Status.NONE, some j)
  | none =>
    match (List.range' min_node num_nodes).find?
        (fun j => nodeValid env j) with
    | some j => (Status.NONE, some j)
    | none => (Status.NO_RESOURCES, none)

theorem nodePasses_vgem (env : Nat → ProbeResult) (j : Nat) :
    nodePasses env (some "vgem") j
      = (nodeValid env j && !nodeBlocked env j) := by
  unfold nodePasses nodeValid nodeBlocked
  cases hv : (env j).versionName with
  | none => simp [hv]
  | some name =>
    simp only [hv]
    by_cases hn : name = "vgem"
    · simp [hn]
    · simp [hn]

theorem nodePasses_none (env : Nat → ProbeResult) (j : Nat) :
    nodePasses env none j = nodeValid env j := by
  unfold nodePasses nodeValid
  cases hv : (env j).versionName with
  | none => simp [hv]
  | some name => simp [hv]

theorem probeLoop_eq_find (env : Nat → ProbeResult) (filter : Option String) :
    ∀ (fuel j : Nat),
      probeLoop env filter j fuel
        = (List.range' j fuel).find? (fun i => nodePasses env filter i) := by
  intro fuel
  induction fuel with
  | zero => intro j; rfl
  | succ n ih =>
    intro j
    rw [List.range'_succ]
    by_cases hp : nodePasses env filter j = true
    · simp [probeLoop, hp, List.find?_cons_of_pos]
    · simp only [probeLoop]
      rw [if_neg hp, List.find?_cons_of_neg _ (by simp [hp]), ih]

/-- C8 (amended): `init` equals the two-pass scan: first the earliest
non-blocklisted valid node, then — when the blocklist filtered every valid
node out — the earliest valid node of any name, and `NO_RESOURCES` exactly
when no node is valid. -/
theorem init_eq_two_pass_spec (env : Nat → ProbeResult) :
    init env = initSpecTwoPass env := by
  have h1 : (fun i => nodePasses env (some "vgem") i)
      = (fun j => nodeValid env j && !nodeBlocked env j) :=
    funext (fun j => nodePasses_vgem env j)
  have h2 : (fun i => nodePasses env none i)
      = (fun j => nodeValid env j) :=
    funext (fun j => nodePasses_none env j)
  have hp1 : probeLoop env (some "vgem") min_node num_nodes
      = (List.range' min_node num_nodes).find?
          (fun j => nodeValid env j && !nodeBlocked env j) := by
    rw [probeLoop_eq_find, h1]
  have hp2 : probeLoop env none min_node num_nodes
      = (List.range' min_node num_nodes).find? (fun j => nodeValid env j) := by
    rw [probeLoop_eq_find, h2]
  simp only [init, initLoop, undesired, hp1, hp2, initSpecTwoPass]
  cases (List.range' min_node num_nodes).find?
      (fun j => nodeValid env j && !nodeBlocked env j) with
  | some j => rfl
  | none =>
    cases (List.range' min_node num_nodes).find? (fun j => nodeValid env j) with
    | some j => rfl
    | none => rfl

/-- An environment in which every node is the blocklisted `vgem` device,
and `vgem` works. -/
def envAllVgem : Nat → ProbeResult := fun _ => ⟨some "vgem", true⟩

/-- C8 counterexample: with only the blocklisted `vgem` device available,
no candidate both passes the blocklist and yields a valid handle, yet
`init` does not return `NO_RESOURCES` — it selects the blocklisted device
(node 128) on the second pass. -/
theorem init_selects_blocklisted_counterexample :
    init envAllVgem = (Status.NONE, some min_node) ∧
    nodeBlocked envAllVgem min_node = true ∧
    (∀ j : Nat, (nodeValid envAllVgem j && !nodeBlocked envAllVgem j) = false) ∧
    Status.NONE ≠ Status.NO_RESOURCES := by
  refine ⟨by decide, rfl, fun j => rfl, by decide⟩

end CrosGralloc
